import Mathlib

/-!
Shallow embedding of the `memkv` key-value store (`dbcore/src/lib.rs`).

Rust `HashMap<String, V>` is modelled as an association list with at most one
binding per key reachable by the operations; `HashSet<String>` is modelled as a
list of distinct strings (iteration order of a `HashSet` is unspecified, so the
list order stands for one admissible iteration order).  Fallible operations
return `Except DBError`; mutating methods return the result paired with the
updated store.
-/

/-- `DBError` from `dbcore`: the three error kinds. -/
inductive DBError where
  | KeyNotFound
  | WrongValueType
  | OutOfKeysSize
  deriving DecidableEq, Repr

/-- `DBOk` from `dbcore`: two-valued success signal. -/
inductive DBOk where
  | Ok
  | Nil
  deriving DecidableEq, Repr

/-- `Value` from `dbcore`: the closed variant set of stored payloads. -/
inductive Value where
  | StringValue (s : String)
  | SetValue (v : List String)
  | HashValue (v : List (String × String))
  deriving DecidableEq, Repr

/-- Lookup in an association list: model of `HashMap::get`. -/
def mapGet {α : Type} (m : List (String × α)) (k : String) : Option α :=
  match m with
  | [] => none
  | (k', v) :: rest => if k' = k then some v else mapGet rest k

/-- Insert/overwrite in an association list: model of `HashMap::insert`
(the old value, which Rust's `insert` returns, is recovered via `mapGet`). -/
def mapInsert {α : Type} (m : List (String × α)) (k : String) (v : α) :
    List (String × α) :=
  match m with
  | [] => [(k, v)]
  | (k', v') :: rest =>
      if k' = k then (k, v) :: rest else (k', v') :: mapInsert rest k v

/-- Removal from an association list: model of `HashMap::remove`. -/
def mapRemove {α : Type} (m : List (String × α)) (k : String) :
    List (String × α) :=
  match m with
  | [] => []
  | (k', v') :: rest =>
      if k' = k then mapRemove rest k else (k', v') :: mapRemove rest k

/-- Model of `HashSet::insert`: returns whether the element was new,
together with the updated set. -/
def setInsert (s : List String) (x : String) : Bool × List String :=
  if x ∈ s then (false, s) else (true, s ++ [x])

/-- Model of `HashSet::remove`: returns whether the element was present,
together with the updated set. -/
def setRemove (s : List String) (x : String) : Bool × List String :=
  if x ∈ s then (true, s.erase x) else (false, s)

/-- `KVDB` from `dbcore`: entries map, TTL side table, optional key ceiling. -/
structure KVDB where
  db : List (String × Value)
  ttl : List (String × Nat)
  max_keys : Option Nat
  deriving DecidableEq, Repr

/-- `KVDB::new`. -/
def KVDB.new (key_size : Option Nat) : KVDB :=
  { db := [], ttl := [], max_keys := key_size }

/-- `KVDB::default`. -/
def KVDB.mkDefault : KVDB := KVDB.new none

/-- `KVDB::can_add_key`: whether a brand-new key may be created. -/
def KVDB.can_add_key (d : KVDB) : Bool :=
  match d.max_keys with
  | some size => decide (0 < size) && decide (d.db.length < size)
  | none => true

/-- `KVDB::set` (lib.rs lines 76-122): conditional string write; on an
`Ok(Ok)` result with an `expire` argument, the TTL table is updated. -/
def KVDB.set (d : KVDB) (key : String) (value : String)
    (not_exists already_exists : Bool) (expire : Option Nat) :
    Except DBError DBOk × KVDB :=
  let step : Except DBError DBOk × KVDB :=
    match mapGet d.db key with
    | some (Value.StringValue _) =>
        if not_exists then (.ok .Nil, d)
        else if d.can_add_key then
          (.ok .Ok, { d with db := mapInsert d.db key (Value.StringValue value) })
        else (.error .OutOfKeysSize, d)
    | some _ => (.error .WrongValueType, d)
    | none =>
        if already_exists then (.ok .Nil, d)
        else if d.can_add_key then
          (.ok .Ok, { d with db := mapInsert d.db key (Value.StringValue value) })
        else (.error .OutOfKeysSize, d)
  match step with
  | (.ok .Ok, d') =>
      match expire with
      | some e => (.ok .Ok, { d' with ttl := mapInsert d'.ttl key e })
      | none => (.ok .Ok, d')
  | r => r

/-- `KVDB::sets`: unconditional `set` without expiry. -/
def KVDB.sets (d : KVDB) (key : String) (value : String) :
    Except DBError DBOk × KVDB :=
  d.set key value false false none

/-- `KVDB::get`. -/
def KVDB.get (d : KVDB) (key : String) : Except DBError (Option String) :=
  match mapGet d.db key with
  | some (Value.StringValue v) => .ok (some v)
  | some _ => .error .WrongValueType
  | none => .ok none

/-- Fold step for `sadd` on an existing set: `if v.insert(member) { counter += 1 }`. -/
def saddStep (acc : Nat × List String) (member : String) : Nat × List String :=
  let r := setInsert acc.2 member
  (if r.1 then acc.1 + 1 else acc.1, r.2)

/-- Fold step for `sadd` on a fresh key: the Rust code increments the counter
unconditionally (`set.insert(member); counter += 1;`). -/
def saddFreshStep (acc : Nat × List String) (member : String) : Nat × List String :=
  (acc.1 + 1, (setInsert acc.2 member).2)

/-- `KVDB::sadd` (lib.rs lines 156-183). -/
def KVDB.sadd (d : KVDB) (key : String) (members : List String) :
    Except DBError Nat × KVDB :=
  match mapGet d.db key with
  | some (Value.SetValue v) =>
      let r := members.foldl saddStep (0, v)
      (.ok r.1, { d with db := mapInsert d.db key (Value.SetValue r.2) })
  | some _ => (.error .WrongValueType, d)
  | none =>
      if d.can_add_key then
        let r := members.foldl saddFreshStep (0, [])
        (.ok r.1, { d with db := mapInsert d.db key (Value.SetValue r.2) })
      else (.error .OutOfKeysSize, d)

/-- `KVDB::srandmember` (lib.rs lines 194-207): takes up to `count` members in
iteration order and removes them from the set. -/
def KVDB.srandmember (d : KVDB) (key : String) (count : Nat) :
    Except DBError (Option (List String)) × KVDB :=
  match mapGet d.db key with
  | some (Value.SetValue v) =>
      let res := v.take count
      let v' := res.foldl (fun acc s => acc.erase s) v
      (.ok (some res), { d with db := mapInsert d.db key (Value.SetValue v') })
  | some _ => (.error .WrongValueType, d)
  | none => (.ok none, d)

/-- `KVDB::spop` (lib.rs lines 217-230): removes the first member in iteration
order, if any. -/
def KVDB.spop (d : KVDB) (key : String) : Except DBError (Option String) × KVDB :=
  match mapGet d.db key with
  | some (Value.SetValue v) =>
      match v with
      | [] => (.ok none, d)
      | s :: rest =>
          (.ok (some s), { d with db := mapInsert d.db key (Value.SetValue rest) })
  | some _ => (.error .WrongValueType, d)
  | none => (.ok none, d)

/-- `KVDB::sismember`. -/
def KVDB.sismember (d : KVDB) (key member : String) :
    Except DBError (Option Bool) :=
  match mapGet d.db key with
  | some (Value.SetValue v) =>
      if member ∈ v then .ok (some true) else .ok (some false)
  | some _ => .error .WrongValueType
  | none => .ok none

/-- Fold step for `srem`: `if v.remove(member) { counter += 1 }`. -/
def sremStep (acc : Nat × List String) (member : String) : Nat × List String :=
  let r := setRemove acc.2 member
  (if r.1 then acc.1 + 1 else acc.1, r.2)

/-- `KVDB::srem` (lib.rs lines 254-268). -/
def KVDB.srem (d : KVDB) (key : String) (members : List String) :
    Except DBError Nat × KVDB :=
  match mapGet d.db key with
  | some (Value.SetValue v) =>
      let r := members.foldl sremStep (0, v)
      (.ok r.1, { d with db := mapInsert d.db key (Value.SetValue r.2) })
  | some _ => (.error .WrongValueType, d)
  | none => (.ok 0, d)

/-- `KVDB::slen`. -/
def KVDB.slen (d : KVDB) (key : String) : Except DBError (Option Nat) :=
  match mapGet d.db key with
  | some (Value.SetValue v) => .ok (some v.length)
  | some _ => .error .WrongValueType
  | none => .ok none

/-- `KVDB::smembers`. -/
def KVDB.smembers (d : KVDB) (key : String) :
    Except DBError (Option (List String)) :=
  match mapGet d.db key with
  | some (Value.SetValue v) => .ok (some v)
  | some _ => .error .WrongValueType
  | none => .ok none

/-- `KVDB::hset` (lib.rs lines 311-332). -/
def KVDB.hset (d : KVDB) (key : String) (field value : String) :
    Except DBError Nat × KVDB :=
  match mapGet d.db key with
  | some (Value.HashValue v) =>
      let old := mapGet v field
      let r := { d with db := mapInsert d.db key (Value.HashValue (mapInsert v field value)) }
      (match old with
       | some _ => (.ok 0, r)
       | none => (.ok 1, r))
  | some _ => (.error .WrongValueType, d)
  | none =>
      if d.can_add_key then
        (.ok 1, { d with db := mapInsert d.db key (Value.HashValue [(field, value)]) })
      else (.error .OutOfKeysSize, d)

/-- `KVDB::hget`. -/
def KVDB.hget (d : KVDB) (key field : String) : Except DBError (Option String) :=
  match mapGet d.db key with
  | some (Value.HashValue v) =>
      match mapGet v field with
      | some value => .ok (some value)
      | none => .ok none
  | some _ => .error .WrongValueType
  | none => .ok none

/-- Bulk insert of field-value pairs into a hash (body of the `hmset` loops). -/
def hmsetFold (v : List (String × String)) (pairs : List (String × String)) :
    List (String × String) :=
  pairs.foldl (fun acc p => mapInsert acc p.1 p.2) v

/-- `KVDB::hmset` (lib.rs lines 363-385). -/
def KVDB.hmset (d : KVDB) (key : String) (pairs : List (String × String)) :
    Except DBError DBOk × KVDB :=
  match mapGet d.db key with
  | some (Value.HashValue v) =>
      (.ok .Ok, { d with db := mapInsert d.db key (Value.HashValue (hmsetFold v pairs)) })
  | some _ => (.error .WrongValueType, d)
  | none =>
      if d.can_add_key then
        (.ok .Ok, { d with db := mapInsert d.db key (Value.HashValue (hmsetFold [] pairs)) })
      else (.error .OutOfKeysSize, d)

/-- `KVDB::hmget` (lib.rs lines 394-406). -/
def KVDB.hmget (d : KVDB) (key : String) (fields : List String) :
    Except DBError (List (Option String)) :=
  match mapGet d.db key with
  | some (Value.HashValue v) => .ok (fields.map (fun field => mapGet v field))
  | some _ => .error .WrongValueType
  | none => .error .KeyNotFound

/-- `KVDB::hkeys`. -/
def KVDB.hkeys (d : KVDB) (key : String) :
    Except DBError (Option (List String)) :=
  match mapGet d.db key with
  | some (Value.HashValue v) => .ok (some (v.map (fun p => p.1)))
  | some _ => .error .WrongValueType
  | none => .ok none

/-- `KVDB::hvalues`. -/
def KVDB.hvalues (d : KVDB) (key : String) :
    Except DBError (Option (List String)) :=
  match mapGet d.db key with
  | some (Value.HashValue v) => .ok (some (v.map (fun p => p.2)))
  | some _ => .error .WrongValueType
  | none => .ok none

/-- `KVDB::hexists`. -/
def KVDB.hexists (d : KVDB) (key field : String) :
    Except DBError (Option Bool) :=
  match mapGet d.db key with
  | some (Value.HashValue v) =>
      match mapGet v field with
      | some _ => .ok (some true)
      | none => .ok (some false)
  | some _ => .error .WrongValueType
  | none => .ok none

/-- `KVDB::hlen`. -/
def KVDB.hlen (d : KVDB) (key : String) : Except DBError (Option Nat) :=
  match mapGet d.db key with
  | some (Value.HashValue v) => .ok (some v.length)
  | some _ => .error .WrongValueType
  | none => .ok none

/-- `KVDB::hdel` (lib.rs lines 493-505). -/
def KVDB.hdel (d : KVDB) (key field : String) :
    Except DBError (Option Nat) × KVDB :=
  match mapGet d.db key with
  | some (Value.HashValue v) =>
      match mapGet v field with
      | some _ =>
          (.ok (some 1), { d with db := mapInsert d.db key (Value.HashValue (mapRemove v field)) })
      | none => (.ok (some 0), d)
  | some _ => (.error .WrongValueType, d)
  | none => (.ok none, d)

/-- Fold step of `del`: remove one key if present, counting removals. -/
def delStep (acc : Nat × KVDB) (key : String) : Nat × KVDB :=
  match mapGet acc.2.db key with
  | some _ => (acc.1 + 1, { acc.2 with db := mapRemove acc.2.db key })
  | none => acc

/-- `KVDB::del` (lib.rs lines 520-529). -/
def KVDB.del (d : KVDB) (keys : List String) : Nat × KVDB :=
  keys.foldl delStep (0, d)

/-- `KVDB::exists`. -/
def KVDB.existsKey (d : KVDB) (key : String) : Bool :=
  (mapGet d.db key).isSome

/-- `KVDB::size`. -/
def KVDB.size (d : KVDB) : Nat := d.db.length

/-! ### Operation language over the store (for whole-run invariants) -/

/-- One call against the store: every public `KVDB` method.  Read-only methods
take `&self` in Rust and leave the state unchanged. -/
inductive Op where
  | set (key value : String) (not_exists already_exists : Bool) (expire : Option Nat)
  | sets (key value : String)
  | get (key : String)
  | sadd (key : String) (members : List String)
  | srandmember (key : String) (count : Nat)
  | spop (key : String)
  | sismember (key member : String)
  | srem (key : String) (members : List String)
  | slen (key : String)
  | smembers (key : String)
  | hset (key field value : String)
  | hget (key field : String)
  | hmset (key : String) (pairs : List (String × String))
  | hmget (key : String) (fields : List String)
  | hkeys (key : String)
  | hvalues (key : String)
  | hexists (key field : String)
  | hlen (key : String)
  | hdel (key field : String)
  | del (keys : List String)
  | existsKey (key : String)
  | size

/-- State effect of one operation (read-only calls leave the state as is). -/
def applyOp (op : Op) (d : KVDB) : KVDB :=
  match op with
  | .set key value ne ae e => (d.set key value ne ae e).2
  | .sets key value => (d.sets key value).2
  | .get _ => d
  | .sadd key members => (d.sadd key members).2
  | .srandmember key count => (d.srandmember key count).2
  | .spop key => (d.spop key).2
  | .sismember _ _ => d
  | .srem key members => (d.srem key members).2
  | .slen _ => d
  | .smembers _ => d
  | .hset key field value => (d.hset key field value).2
  | .hget _ _ => d
  | .hmset key pairs => (d.hmset key pairs).2
  | .hmget _ _ => d
  | .hkeys _ => d
  | .hvalues _ => d
  | .hexists _ _ => d
  | .hlen _ => d
  | .hdel key field => (d.hdel key field).2
  | .del keys => (d.del keys).2
  | .existsKey _ => d
  | .size => d

/-- Run a sequence of operations from a fresh store with capacity `n`. -/
def runOps (n : Nat) (ops : List Op) : KVDB :=
  ops.foldl (fun d op => applyOp op d) (KVDB.new (some n))

/-- Sample store for witnesses: "ks" holds the set {a, b, c}; one TTL entry. -/
def dSetSample : KVDB :=
  { db := [("ks", Value.SetValue ["a", "b", "c"])], ttl := [("ks", 42)],
    max_keys := some 1 }

/-- Sample store for witnesses: "kh" holds the hash {a ↦ 1}. -/
def dHashSample : KVDB :=
  { db := [("kh", Value.HashValue [("a", "1")])], ttl := [], max_keys := none }

/-- Sample store for witnesses: two string keys, a TTL entry for "k1". -/
def dDelSample : KVDB :=
  { db := [("k1", Value.StringValue "v"), ("k2", Value.StringValue "w")],
    ttl := [("k1", 7)], max_keys := none }


/-! ### Association-list lemmas -/

theorem mapGet_mapInsert_self {α : Type} (m : List (String × α)) (k : String) (v : α) :
    mapGet (mapInsert m k v) k = some v := by
  induction m with
  | nil => simp [mapGet, mapInsert]
  | cons p rest ih =>
      obtain ⟨k', v'⟩ := p
      by_cases h : k' = k
      · simp [mapGet, mapInsert, h]
      · simp [mapGet, mapInsert, h, ih]

theorem mapGet_mapInsert_ne {α : Type} (m : List (String × α)) (k k' : String) (v : α)
    (h : k' ≠ k) : mapGet (mapInsert m k v) k' = mapGet m k' := by
  induction m with
  | nil => simp [mapGet, mapInsert, Ne.symm h]
  | cons p rest ih =>
      obtain ⟨k₀, v₀⟩ := p
      by_cases hk : k₀ = k
      · subst hk
        simp [mapGet, mapInsert, Ne.symm h]
      · simp only [mapInsert, if_neg hk]
        by_cases hk' : k₀ = k'
        · simp [mapGet, hk']
        · simp [mapGet, hk', ih]

theorem length_mapInsert_present {α : Type} (m : List (String × α)) (k : String)
    (v w : α) (h : mapGet m k = some w) :
    (mapInsert m k v).length = m.length := by
  induction m with
  | nil => simp [mapGet] at h
  | cons p rest ih =>
      obtain ⟨k₀, v₀⟩ := p
      by_cases hk : k₀ = k
      · simp [mapInsert, hk]
      · simp only [mapGet, if_neg hk] at h
        simp [mapInsert, hk, ih h]

theorem length_mapInsert_absent {α : Type} (m : List (String × α)) (k : String)
    (v : α) (h : mapGet m k = none) :
    (mapInsert m k v).length = m.length + 1 := by
  induction m with
  | nil => simp [mapInsert]
  | cons p rest ih =>
      obtain ⟨k₀, v₀⟩ := p
      by_cases hk : k₀ = k
      · simp [mapGet, hk] at h
      · simp only [mapGet, if_neg hk] at h
        simp [mapInsert, hk, ih h]

theorem length_mapRemove_le {α : Type} (m : List (String × α)) (k : String) :
    (mapRemove m k).length ≤ m.length := by
  induction m with
  | nil => simp [mapRemove]
  | cons p rest ih =>
      obtain ⟨k₀, v₀⟩ := p
      by_cases hk : k₀ = k
      · simp only [mapRemove, if_pos hk]
        exact le_trans ih (Nat.le_succ _)
      · simpa [mapRemove, hk] using ih

theorem mapGet_mapRemove_self {α : Type} (m : List (String × α)) (k : String) :
    mapGet (mapRemove m k) k = none := by
  induction m with
  | nil => simp [mapRemove, mapGet]
  | cons p rest ih =>
      obtain ⟨k₀, v₀⟩ := p
      by_cases hk : k₀ = k
      · simpa [mapRemove, hk] using ih
      · simp [mapRemove, mapGet, hk, ih]

theorem length_mapInsert_le {α : Type} (m : List (String × α)) (k : String) (v : α) :
    (mapInsert m k v).length ≤ m.length + 1 := by
  induction m with
  | nil => simp [mapInsert]
  | cons p rest ih =>
      obtain ⟨k₀, v₀⟩ := p
      by_cases hk : k₀ = k
      · simp [mapInsert, hk]
      · simpa [mapInsert, hk] using ih

theorem mapGet_mapRemove_ne {α : Type} (m : List (String × α)) (k k' : String)
    (h : k' ≠ k) : mapGet (mapRemove m k) k' = mapGet m k' := by
  induction m with
  | nil => simp [mapRemove]
  | cons p rest ih =>
      obtain ⟨k₀, v₀⟩ := p
      by_cases hk : k₀ = k
      · subst hk
        simp [mapRemove, mapGet, Ne.symm h, ih]
      · by_cases hk' : k₀ = k'
        · subst hk'
          simp [mapRemove, mapGet, hk]
        · simp [mapRemove, mapGet, hk, hk', ih]


/-! ### Capacity lemmas -/

theorem can_add_key_lt (d : KVDB) (n : Nat) (hmk : d.max_keys = some n)
    (h : d.can_add_key = true) : d.db.length < n := by
  simp [KVDB.can_add_key, hmk] at h
  exact h.2

theorem del_foldl_length (keys : List String) (c : Nat) (d : KVDB) :
    ((keys.foldl delStep (c, d)).2).db.length ≤ d.db.length := by
  induction keys generalizing c d with
  | nil => simp
  | cons key rest ih =>
      simp only [List.foldl_cons]
      rcases hg : mapGet d.db key with _ | w
      · simpa [delStep, hg] using ih c d
      · simp only [delStep, hg]
        exact le_trans (ih _ _) (le_trans (length_mapRemove_le _ _) (le_refl _))

theorem del_foldl_ttl_max (keys : List String) (c : Nat) (d : KVDB) :
    ((keys.foldl delStep (c, d)).2).ttl = d.ttl ∧
    ((keys.foldl delStep (c, d)).2).max_keys = d.max_keys := by
  induction keys generalizing c d with
  | nil => exact ⟨rfl, rfl⟩
  | cons key rest ih =>
      simp only [List.foldl_cons]
      rcases hg : mapGet d.db key with _ | w
      · simpa [delStep, hg] using ih c d
      · simpa [delStep, hg] using ih _ _

theorem set_state_inv (d : KVDB) (key value : String) (ne ae : Bool) (e : Option Nat)
    (n : Nat) (hmk : d.max_keys = some n) (h : d.db.length ≤ n) :
    (d.set key value ne ae e).2.max_keys = some n ∧
    (d.set key value ne ae e).2.db.length ≤ n := by
  rcases hg : mapGet d.db key with _ | w
  · cases hae : ae
    · cases hcak : d.can_add_key
      · simp [KVDB.set, hg, hae, hcak, hmk, h]
      · have hlt := can_add_key_lt d n hmk hcak
        have hins := length_mapInsert_le d.db key (Value.StringValue value)
        rcases e with _ | e₀ <;> simp [KVDB.set, hg, hae, hcak, hmk] <;> omega
    · simp [KVDB.set, hg, hae, hmk, h]
  · cases w with
    | StringValue s =>
        cases hne : ne
        · cases hcak : d.can_add_key
          · simp [KVDB.set, hg, hne, hcak, hmk, h]
          · have hlt := can_add_key_lt d n hmk hcak
            have hins := length_mapInsert_le d.db key (Value.StringValue value)
            rcases e with _ | e₀ <;> simp [KVDB.set, hg, hne, hcak, hmk] <;> omega
        · simp [KVDB.set, hg, hne, hmk, h]
    | SetValue v => simp [KVDB.set, hg, hmk, h]
    | HashValue v => simp [KVDB.set, hg, hmk, h]

theorem sadd_state_inv (d : KVDB) (key : String) (ms : List String) (n : Nat)
    (hmk : d.max_keys = some n) (h : d.db.length ≤ n) :
    (d.sadd key ms).2.max_keys = some n ∧ (d.sadd key ms).2.db.length ≤ n := by
  rcases hg : mapGet d.db key with _ | w
  · cases hcak : d.can_add_key
    · simp [KVDB.sadd, hg, hcak, hmk, h]
    · have hlt := can_add_key_lt d n hmk hcak
      have hins := length_mapInsert_le d.db key
        (Value.SetValue (ms.foldl saddFreshStep (0, [])).2)
      simp [KVDB.sadd, hg, hcak, hmk]
      omega
  · cases w with
    | StringValue s => simp [KVDB.sadd, hg, hmk, h]
    | SetValue v =>
        have hins := length_mapInsert_present d.db key
          (Value.SetValue (ms.foldl saddStep (0, v)).2) _ hg
        simp [KVDB.sadd, hg, hmk]
        omega
    | HashValue v => simp [KVDB.sadd, hg, hmk, h]

theorem srandmember_state_inv (d : KVDB) (key : String) (c : Nat) (n : Nat)
    (hmk : d.max_keys = some n) (h : d.db.length ≤ n) :
    (d.srandmember key c).2.max_keys = some n ∧
    (d.srandmember key c).2.db.length ≤ n := by
  rcases hg : mapGet d.db key with _ | w
  · simp [KVDB.srandmember, hg, hmk, h]
  · cases w with
    | StringValue s => simp [KVDB.srandmember, hg, hmk, h]
    | SetValue v =>
        have hins := length_mapInsert_present d.db key
          (Value.SetValue ((v.take c).foldl (fun acc s => acc.erase s) v)) _ hg
        simp [KVDB.srandmember, hg, hmk]
        omega
    | HashValue v => simp [KVDB.srandmember, hg, hmk, h]

theorem spop_state_inv (d : KVDB) (key : String) (n : Nat)
    (hmk : d.max_keys = some n) (h : d.db.length ≤ n) :
    (d.spop key).2.max_keys = some n ∧ (d.spop key).2.db.length ≤ n := by
  rcases hg : mapGet d.db key with _ | w
  · simp [KVDB.spop, hg, hmk, h]
  · cases w with
    | StringValue s => simp [KVDB.spop, hg, hmk, h]
    | SetValue v =>
        cases v with
        | nil => simp [KVDB.spop, hg, hmk, h]
        | cons s rest =>
            have hins := length_mapInsert_present d.db key (Value.SetValue rest) _ hg
            simp [KVDB.spop, hg, hmk]
            omega
    | HashValue v => simp [KVDB.spop, hg, hmk, h]

theorem srem_state_inv (d : KVDB) (key : String) (ms : List String) (n : Nat)
    (hmk : d.max_keys = some n) (h : d.db.length ≤ n) :
    (d.srem key ms).2.max_keys = some n ∧ (d.srem key ms).2.db.length ≤ n := by
  rcases hg : mapGet d.db key with _ | w
  · simp [KVDB.srem, hg, hmk, h]
  · cases w with
    | StringValue s => simp [KVDB.srem, hg, hmk, h]
    | SetValue v =>
        have hins := length_mapInsert_present d.db key
          (Value.SetValue (ms.foldl sremStep (0, v)).2) _ hg
        simp [KVDB.srem, hg, hmk]
        omega
    | HashValue v => simp [KVDB.srem, hg, hmk, h]

theorem hset_state_inv (d : KVDB) (key field value : String) (n : Nat)
    (hmk : d.max_keys = some n) (h : d.db.length ≤ n) :
    (d.hset key field value).2.max_keys = some n ∧
    (d.hset key field value).2.db.length ≤ n := by
  rcases hg : mapGet d.db key with _ | w
  · cases hcak : d.can_add_key
    · simp [KVDB.hset, hg, hcak, hmk, h]
    · have hlt := can_add_key_lt d n hmk hcak
      have hins := length_mapInsert_le d.db key (Value.HashValue [(field, value)])
      simp [KVDB.hset, hg, hcak, hmk]
      omega
  · cases w with
    | StringValue s => simp [KVDB.hset, hg, hmk, h]
    | SetValue v => simp [KVDB.hset, hg, hmk, h]
    | HashValue v =>
        have hins := length_mapInsert_present d.db key
          (Value.HashValue (mapInsert v field value)) _ hg
        rcases hf : mapGet v field with _ | old <;> simp [KVDB.hset, hg, hf, hmk] <;> omega

theorem hmset_state_inv (d : KVDB) (key : String) (pairs : List (String × String))
    (n : Nat) (hmk : d.max_keys = some n) (h : d.db.length ≤ n) :
    (d.hmset key pairs).2.max_keys = some n ∧
    (d.hmset key pairs).2.db.length ≤ n := by
  rcases hg : mapGet d.db key with _ | w
  · cases hcak : d.can_add_key
    · simp [KVDB.hmset, hg, hcak, hmk, h]
    · have hlt := can_add_key_lt d n hmk hcak
      have hins := length_mapInsert_le d.db key (Value.HashValue (hmsetFold [] pairs))
      simp [KVDB.hmset, hg, hcak, hmk]
      omega
  · cases w with
    | StringValue s => simp [KVDB.hmset, hg, hmk, h]
    | SetValue v => simp [KVDB.hmset, hg, hmk, h]
    | HashValue v =>
        have hins := length_mapInsert_present d.db key
          (Value.HashValue (hmsetFold v pairs)) _ hg
        simp [KVDB.hmset, hg, hmk]
        omega

theorem hdel_state_inv (d : KVDB) (key field : String) (n : Nat)
    (hmk : d.max_keys = some n) (h : d.db.length ≤ n) :
    (d.hdel key field).2.max_keys = some n ∧ (d.hdel key field).2.db.length ≤ n := by
  rcases hg : mapGet d.db key with _ | w
  · simp [KVDB.hdel, hg, hmk, h]
  · cases w with
    | StringValue s => simp [KVDB.hdel, hg, hmk, h]
    | SetValue v => simp [KVDB.hdel, hg, hmk, h]
    | HashValue v =>
        rcases hf : mapGet v field with _ | old
        · simp [KVDB.hdel, hg, hf, hmk, h]
        · have hins := length_mapInsert_present d.db key
            (Value.HashValue (mapRemove v field)) _ hg
          simp [KVDB.hdel, hg, hf, hmk]
          omega

theorem del_state_inv (d : KVDB) (keys : List String) (n : Nat)
    (hmk : d.max_keys = some n) (h : d.db.length ≤ n) :
    (d.del keys).2.max_keys = some n ∧ (d.del keys).2.db.length ≤ n := by
  unfold KVDB.del
  constructor
  · rw [(del_foldl_ttl_max keys 0 d).2, hmk]
  · exact le_trans (del_foldl_length keys 0 d) h

theorem applyOp_state_inv (op : Op) (d : KVDB) (n : Nat)
    (hmk : d.max_keys = some n) (h : d.db.length ≤ n) :
    (applyOp op d).max_keys = some n ∧ (applyOp op d).db.length ≤ n := by
  cases op with
  | set key value ne ae e => exact set_state_inv d key value ne ae e n hmk h
  | sets key value => exact set_state_inv d key value false false none n hmk h
  | get key => exact ⟨hmk, h⟩
  | sadd key members => exact sadd_state_inv d key members n hmk h
  | srandmember key count => exact srandmember_state_inv d key count n hmk h
  | spop key => exact spop_state_inv d key n hmk h
  | sismember key member => exact ⟨hmk, h⟩
  | srem key members => exact srem_state_inv d key members n hmk h
  | slen key => exact ⟨hmk, h⟩
  | smembers key => exact ⟨hmk, h⟩
  | hset key field value => exact hset_state_inv d key field value n hmk h
  | hget key field => exact ⟨hmk, h⟩
  | hmset key pairs => exact hmset_state_inv d key pairs n hmk h
  | hmget key fields => exact ⟨hmk, h⟩
  | hkeys key => exact ⟨hmk, h⟩
  | hvalues key => exact ⟨hmk, h⟩
  | hexists key field => exact ⟨hmk, h⟩
  | hlen key => exact ⟨hmk, h⟩
  | hdel key field => exact hdel_state_inv d key field n hmk h
  | del keys => exact del_state_inv d keys n hmk h
  | existsKey key => exact ⟨hmk, h⟩
  | size => exact ⟨hmk, h⟩

theorem foldl_applyOp_state_inv (ops : List Op) (d : KVDB) (n : Nat)
    (hmk : d.max_keys = some n) (h : d.db.length ≤ n) :
    (ops.foldl (fun d op => applyOp op d) d).db.length ≤ n := by
  induction ops generalizing d with
  | nil => exact h
  | cons op rest ih =>
      simp only [List.foldl_cons]
      obtain ⟨hmk', h'⟩ := applyOp_state_inv op d n hmk h
      exact ih _ hmk' h'

/-- C3: for every capacity `n` and every sequence of operations (all public
`KVDB` methods, mutating and reading), the store that results from running the
sequence on a fresh store with `capacity = Some n` holds at most `n` entries.
Since every prefix of a sequence is itself a sequence, the bound holds after
each operation. -/
theorem C3_capacity_invariant (n : Nat) (ops : List Op) :
    (runOps n ops).size ≤ n := by
  unfold runOps KVDB.size
  exact foldl_applyOp_state_inv ops (KVDB.new (some n)) n rfl (by simp [KVDB.new])

/-! ### Error branches leave the store untouched -/

theorem set_error_frame (d : KVDB) (k v : String) (ne ae : Bool) (e : Option Nat)
    (err : DBError) (h : (d.set k v ne ae e).1 = .error err) :
    (d.set k v ne ae e).2 = d := by
  rcases hg : mapGet d.db k with _ | w
  · cases hae : ae
    · cases hcak : d.can_add_key
      · simp [KVDB.set, hg, hae, hcak]
      · rcases e with _ | e₀ <;> simp [KVDB.set, hg, hae, hcak] at h
    · simp [KVDB.set, hg, hae] at h
  · cases w with
    | StringValue s =>
        cases hne : ne
        · cases hcak : d.can_add_key
          · simp [KVDB.set, hg, hne, hcak]
          · rcases e with _ | e₀ <;> simp [KVDB.set, hg, hne, hcak] at h
        · simp [KVDB.set, hg, hne] at h
    | SetValue sv => simp [KVDB.set, hg]
    | HashValue hv => simp [KVDB.set, hg]

theorem sadd_error_frame (d : KVDB) (k : String) (ms : List String)
    (err : DBError) (h : (d.sadd k ms).1 = .error err) : (d.sadd k ms).2 = d := by
  rcases hg : mapGet d.db k with _ | w
  · cases hcak : d.can_add_key
    · simp [KVDB.sadd, hg, hcak]
    · simp [KVDB.sadd, hg, hcak] at h
  · cases w with
    | StringValue s => simp [KVDB.sadd, hg]
    | SetValue sv => simp [KVDB.sadd, hg] at h
    | HashValue hv => simp [KVDB.sadd, hg]

theorem hset_error_frame (d : KVDB) (k f v : String)
    (err : DBError) (h : (d.hset k f v).1 = .error err) : (d.hset k f v).2 = d := by
  rcases hg : mapGet d.db k with _ | w
  · cases hcak : d.can_add_key
    · simp [KVDB.hset, hg, hcak]
    · simp [KVDB.hset, hg, hcak] at h
  · cases w with
    | StringValue s => simp [KVDB.hset, hg]
    | SetValue sv => simp [KVDB.hset, hg]
    | HashValue hv =>
        rcases hf : mapGet hv f with _ | old <;> simp [KVDB.hset, hg, hf] at h

theorem hmset_error_frame (d : KVDB) (k : String) (ps : List (String × String))
    (err : DBError) (h : (d.hmset k ps).1 = .error err) : (d.hmset k ps).2 = d := by
  rcases hg : mapGet d.db k with _ | w
  · cases hcak : d.can_add_key
    · simp [KVDB.hmset, hg, hcak]
    · simp [KVDB.hmset, hg, hcak] at h
  · cases w with
    | StringValue s => simp [KVDB.hmset, hg]
    | SetValue sv => simp [KVDB.hmset, hg]
    | HashValue hv => simp [KVDB.hmset, hg] at h

/-- C4: whenever `set`, `sadd`, `hset`, or `hmset` returns the error
`OutOfKeysSize`, the store it returns is exactly the store it started from:
the entries map and the TTL ledger are both unchanged (atomic no-op on
rejection, no partial writes). -/
theorem C4_out_of_keys_size_is_noop (d : KVDB) (k f v : String)
    (ne ae : Bool) (e : Option Nat) (ms : List String)
    (ps : List (String × String)) :
    ((d.set k v ne ae e).1 = .error .OutOfKeysSize → (d.set k v ne ae e).2 = d) ∧
    ((d.sadd k ms).1 = .error .OutOfKeysSize → (d.sadd k ms).2 = d) ∧
    ((d.hset k f v).1 = .error .OutOfKeysSize → (d.hset k f v).2 = d) ∧
    ((d.hmset k ps).1 = .error .OutOfKeysSize → (d.hmset k ps).2 = d) :=
  ⟨set_error_frame d k v ne ae e .OutOfKeysSize,
   sadd_error_frame d k ms .OutOfKeysSize,
   hset_error_frame d k f v .OutOfKeysSize,
   hmset_error_frame d k ps .OutOfKeysSize⟩

/-- Witness for C4 at capacity 0, where every new-key write is rejected. -/
theorem C4_witness :
    ((KVDB.new (some 0)).set "k" "v" false false none).2 = KVDB.new (some 0) ∧
    ((KVDB.new (some 0)).sadd "k" ["a"]).2 = KVDB.new (some 0) ∧
    ((KVDB.new (some 0)).hset "k" "f" "v").2 = KVDB.new (some 0) ∧
    ((KVDB.new (some 0)).hmset "k" [("f", "v")]).2 = KVDB.new (some 0) := by
  obtain ⟨h1, h2, h3, h4⟩ :=
    C4_out_of_keys_size_is_noop (KVDB.new (some 0)) "k" "f" "v" false false none
      ["a"] [("f", "v")]
  exact ⟨h1 rfl, h2 rfl, h3 rfl, h4 rfl⟩

/-! ### Concrete evaluations exposing divergences from the spec -/

/-- C1: the code applies the capacity check even when overwriting an existing
`String` key.  With `capacity = Some 1` and the store full (holding only "k"),
overwriting "k" with `not_exists = false` returns `OutOfKeysSize` instead of
`Ok`, and the old value stays in place. -/
theorem C1_overwrite_at_capacity_rejected :
    (((KVDB.new (some 1)).sets "k" "v1").2.set "k" "v2" false false none).1 =
      .error .OutOfKeysSize ∧
    (((KVDB.new (some 1)).sets "k" "v1").2.set "k" "v2" false false none).2.get "k" =
      .ok (some "v1") ∧
    ((KVDB.new (some 1)).sets "k" "v1").2.size = 1 :=
  ⟨rfl, rfl, rfl⟩

/-- C2: on the fresh-key path `sadd` increments its counter for every input
member without consulting the set, so a duplicated input is double-counted:
`sadd k [a, a]` on an absent key (capacity unbounded) returns 2 although the
freshly created set holds exactly one distinct member. -/
theorem C2_sadd_fresh_key_counts_duplicates :
    ((KVDB.new none).sadd "k" ["a", "a"]).1 = .ok 2 ∧
    ((KVDB.new none).sadd "k" ["a", "a"]).2.slen "k" = .ok (some 1) ∧
    ((KVDB.new none).sadd "k" ["a", "a"]).2.smembers "k" = .ok (some ["a"]) :=
  ⟨rfl, rfl, rfl⟩

/-- C5: for a key holding a hash, `hmget` returns a list aligned one-to-one
with the requested fields — slot `i` is `some value` when field `i` is present
and `none` when it is missing; for an absent key, `hmget` returns the error
`KeyNotFound` rather than a successful `none`. -/
theorem C5_hmget_aligned_and_key_not_found (d : KVDB) (k : String)
    (fields : List String) :
    (∀ hv, mapGet d.db k = some (Value.HashValue hv) →
      ∃ vs, d.hmget k fields = .ok vs ∧ vs.length = fields.length ∧
        ∀ (i : Nat) (f : String), fields[i]? = some f → vs[i]? = some (mapGet hv f)) ∧
    (mapGet d.db k = none → d.hmget k fields = .error .KeyNotFound) := by
  constructor
  · intro hv hg
    refine ⟨fields.map (fun f => mapGet hv f), ?_, ?_, ?_⟩
    · simp [KVDB.hmget, hg]
    · simp
    · intro i f hf
      rw [List.getElem?_map, hf]
      rfl
  · intro hg
    simp [KVDB.hmget, hg]

/-- Witness for C5 on the sample hash store and on a fresh store. -/
theorem C5_witness :
    (∃ vs, dHashSample.hmget "kh" ["a", "z"] = .ok vs ∧
      vs.length = (["a", "z"] : List String).length ∧
      ∀ (i : Nat) (f : String), (["a", "z"] : List String)[i]? = some f →
        vs[i]? = some (mapGet [("a", "1")] f)) ∧
    (KVDB.new none).hmget "kh" ["a"] = .error .KeyNotFound :=
  ⟨(C5_hmget_aligned_and_key_not_found dHashSample "kh" ["a", "z"]).1
     [("a", "1")] rfl,
   (C5_hmget_aligned_and_key_not_found (KVDB.new none) "kh" ["a"]).2 rfl⟩

/-- C7: on a fresh key admitted by the capacity check, a conditional
`set(k, v1, not_exists = true, already_exists = false, e1)` returns `Ok` and
stores `v1`; a second `set(k, v2, not_exists = true, ...)` with any value,
`already_exists` flag and expire returns `Nil` and leaves the store — and so
the stored value `v1` — untouched. -/
theorem C7_conditional_set (d : KVDB) (k v1 v2 : String) (e1 e2 : Option Nat)
    (ae2 : Bool) (habs : mapGet d.db k = none) (hcap : d.can_add_key = true) :
    (d.set k v1 true false e1).1 = .ok .Ok ∧
    (d.set k v1 true false e1).2.get k = .ok (some v1) ∧
    ((d.set k v1 true false e1).2.set k v2 true ae2 e2).1 = .ok .Nil ∧
    ((d.set k v1 true false e1).2.set k v2 true ae2 e2).2 =
      (d.set k v1 true false e1).2 := by
  have hdb : (d.set k v1 true false e1).2.db =
      mapInsert d.db k (Value.StringValue v1) := by
    rcases e1 with _ | e₀ <;> simp [KVDB.set, habs, hcap]
  have hres : (d.set k v1 true false e1).1 = .ok .Ok := by
    rcases e1 with _ | e₀ <;> simp [KVDB.set, habs, hcap]
  have hget : mapGet (d.set k v1 true false e1).2.db k =
      some (Value.StringValue v1) := by
    rw [hdb]
    exact mapGet_mapInsert_self _ _ _
  refine ⟨hres, ?_, ?_, ?_⟩
  · simp [KVDB.get, hget]
  · generalize hD : (d.set k v1 true false e1).2 = d1 at hget ⊢
    simp [KVDB.set, hget]
  · generalize hD : (d.set k v1 true false e1).2 = d1 at hget ⊢
    simp [KVDB.set, hget]

/-- Witness for C7 on a fresh bounded store. -/
theorem C7_witness :
    ((KVDB.new (some 1)).set "k" "v1" true false (some 9)).1 = .ok .Ok ∧
    ((KVDB.new (some 1)).set "k" "v1" true false (some 9)).2.get "k" =
      .ok (some "v1") ∧
    (((KVDB.new (some 1)).set "k" "v1" true false (some 9)).2.set "k" "v2"
      true false none).1 = .ok .Nil := by
  obtain ⟨h1, h2, h3, _⟩ :=
    C7_conditional_set (KVDB.new (some 1)) "k" "v1" "v2" (some 9) none false
      rfl rfl
  exact ⟨h1, h2, h3⟩

/-- C8: once key `k` holds a `Set`, `hset`, `get` and `hget` on `k` all return
`WrongValueType`, and `hset` returns the store unchanged (`get` and `hget`
take the store immutably, so they cannot mutate anything). -/
theorem C8_set_key_type_guard (d : KVDB) (k f v : String) (sv : List String)
    (h : mapGet d.db k = some (Value.SetValue sv)) :
    (d.hset k f v).1 = .error .WrongValueType ∧ (d.hset k f v).2 = d ∧
    d.get k = .error .WrongValueType ∧ d.hget k f = .error .WrongValueType := by
  refine ⟨?_, ?_, ?_, ?_⟩ <;> simp [KVDB.hset, KVDB.get, KVDB.hget, h]

/-- Witness for C8 on the sample set store. -/
theorem C8_witness :
    (dSetSample.hset "ks" "f" "v").1 = .error .WrongValueType ∧
    (dSetSample.hset "ks" "f" "v").2 = dSetSample ∧
    dSetSample.get "ks" = .error .WrongValueType ∧
    dSetSample.hget "ks" "f" = .error .WrongValueType :=
  C8_set_key_type_guard dSetSample "ks" "f" "v" ["a", "b", "c"] rfl

/-- Erasing the first `c` elements of a duplicate-free list, one by one,
leaves exactly the remaining suffix. -/
theorem foldl_erase_take (sv : List String) (c : Nat) (h : sv.Nodup) :
    (sv.take c).foldl (fun acc s => acc.erase s) sv = sv.drop c := by
  induction sv generalizing c with
  | nil => simp
  | cons x xs ih =>
      cases c with
      | zero => simp
      | succ n =>
          simp only [List.take_succ_cons, List.foldl_cons, List.drop_succ_cons]
          rw [List.erase_cons_head]
          exact ih n (List.Nodup.of_cons h)

/-- C6: on a key holding a duplicate-free set with `m` members, `srandmember`
with count `c` returns `min c m` distinct members drawn from the set (all of
them when `m < c`) and removes them, so `slen` afterwards reports
`m - min c m`; an absent key yields `Ok None` with the store untouched, and a
key of the wrong type yields `WrongValueType`. -/
theorem C6_srandmember_spec (d : KVDB) (k : String) (c : Nat) :
    (∀ sv, mapGet d.db k = some (Value.SetValue sv) → sv.Nodup →
      ∃ res, (d.srandmember k c).1 = .ok (some res) ∧
        res.length = min c sv.length ∧ res.Nodup ∧ (∀ x ∈ res, x ∈ sv) ∧
        (d.srandmember k c).2.slen k =
          .ok (some (sv.length - min c sv.length))) ∧
    (mapGet d.db k = none → d.srandmember k c = (.ok none, d)) ∧
    (∀ s, mapGet d.db k = some (Value.StringValue s) →
      (d.srandmember k c).1 = .error .WrongValueType) ∧
    (∀ hv, mapGet d.db k = some (Value.HashValue hv) →
      (d.srandmember k c).1 = .error .WrongValueType) := by
  refine ⟨?_, ?_, ?_, ?_⟩
  · intro sv hg hnd
    refine ⟨sv.take c, ?_, List.length_take c sv, hnd.sublist (List.take_sublist c sv),
      fun x hx => List.take_subset c sv hx, ?_⟩
    · simp [KVDB.srandmember, hg]
    · have hdrop := foldl_erase_take sv c hnd
      have hdb : (d.srandmember k c).2.db =
          mapInsert d.db k (Value.SetValue (sv.drop c)) := by
        simp [KVDB.srandmember, hg, hdrop]
      have hlen : (sv.drop c).length = sv.length - min c sv.length := by
        rw [List.length_drop]
        omega
      simp [KVDB.slen, hdb, mapGet_mapInsert_self, hlen]
  · intro hg
    simp [KVDB.srandmember, hg]
  · intro s hg
    simp [KVDB.srandmember, hg]
  · intro hv hg
    simp [KVDB.srandmember, hg]

/-- Witness for C6 on the sample set store and a fresh store. -/
theorem C6_witness :
    (∃ res, (dSetSample.srandmember "ks" 2).1 = .ok (some res) ∧
      res.length = min 2 (["a", "b", "c"] : List String).length ∧ res.Nodup ∧
      (∀ x ∈ res, x ∈ (["a", "b", "c"] : List String)) ∧
      (dSetSample.srandmember "ks" 2).2.slen "ks" =
        .ok (some ((["a", "b", "c"] : List String).length -
          min 2 (["a", "b", "c"] : List String).length))) ∧
    (KVDB.new none).srandmember "ks" 2 = (.ok none, KVDB.new none) :=
  ⟨(C6_srandmember_spec dSetSample "ks" 2).1 ["a", "b", "c"] rfl (by decide),
   (C6_srandmember_spec (KVDB.new none) "ks" 2).2.1 rfl⟩

/-- If a key is present in an association list, it stays present after any
`mapInsert`. -/
theorem isSome_mapGet_mapInsert {α : Type} (m : List (String × α)) (key k : String)
    (v : α) (h : (mapGet m k).isSome = true) :
    (mapGet (mapInsert m key v) k).isSome = true := by
  by_cases hk : k = key
  · subst hk
    rw [mapGet_mapInsert_self]
    rfl
  · rw [mapGet_mapInsert_ne m key k v hk]
    exact h

theorem set_db_cases (d : KVDB) (k0 v : String) (ne ae : Bool) (e : Option Nat) :
    (d.set k0 v ne ae e).2.db = d.db ∨
    (d.set k0 v ne ae e).2.db = mapInsert d.db k0 (Value.StringValue v) := by
  rcases hg : mapGet d.db k0 with _ | w
  · cases hae : ae
    · cases hcak : d.can_add_key
      · left
        simp [KVDB.set, hg, hae, hcak]
      · right
        rcases e with _ | e₀ <;> simp [KVDB.set, hg, hae, hcak]
    · left
      simp [KVDB.set, hg, hae]
  · cases w with
    | StringValue s =>
        cases hne : ne
        · cases hcak : d.can_add_key
          · left
            simp [KVDB.set, hg, hne, hcak]
          · right
            rcases e with _ | e₀ <;> simp [KVDB.set, hg, hne, hcak]
        · left
          simp [KVDB.set, hg, hne]
    | SetValue sv =>
        left
        simp [KVDB.set, hg]
    | HashValue hv =>
        left
        simp [KVDB.set, hg]

theorem sadd_db_cases (d : KVDB) (k0 : String) (ms : List String) :
    (d.sadd k0 ms).2.db = d.db ∨
    ∃ w, (d.sadd k0 ms).2.db = mapInsert d.db k0 w := by
  rcases hg : mapGet d.db k0 with _ | w
  · cases hcak : d.can_add_key
    · left
      simp [KVDB.sadd, hg, hcak]
    · right
      exact ⟨Value.SetValue (ms.foldl saddFreshStep (0, [])).2,
        by simp [KVDB.sadd, hg, hcak]⟩
  · cases w with
    | StringValue s =>
        left
        simp [KVDB.sadd, hg]
    | SetValue sv =>
        right
        exact ⟨Value.SetValue (ms.foldl saddStep (0, sv)).2, by simp [KVDB.sadd, hg]⟩
    | HashValue hv =>
        left
        simp [KVDB.sadd, hg]

theorem srandmember_db_cases (d : KVDB) (k0 : String) (c : Nat) :
    (d.srandmember k0 c).2.db = d.db ∨
    ∃ w, (d.srandmember k0 c).2.db = mapInsert d.db k0 w := by
  rcases hg : mapGet d.db k0 with _ | w
  · left
    simp [KVDB.srandmember, hg]
  · cases w with
    | StringValue s =>
        left
        simp [KVDB.srandmember, hg]
    | SetValue sv =>
        right
        exact ⟨Value.SetValue ((sv.take c).foldl (fun acc s => acc.erase s) sv),
          by simp [KVDB.srandmember, hg]⟩
    | HashValue hv =>
        left
        simp [KVDB.srandmember, hg]

theorem spop_db_cases (d : KVDB) (k0 : String) :
    (d.spop k0).2.db = d.db ∨ ∃ w, (d.spop k0).2.db = mapInsert d.db k0 w := by
  rcases hg : mapGet d.db k0 with _ | w
  · left
    simp [KVDB.spop, hg]
  · cases w with
    | StringValue s =>
        left
        simp [KVDB.spop, hg]
    | SetValue sv =>
        cases sv with
        | nil =>
            left
            simp [KVDB.spop, hg]
        | cons x rest =>
            right
            exact ⟨Value.SetValue rest, by simp [KVDB.spop, hg]⟩
    | HashValue hv =>
        left
        simp [KVDB.spop, hg]

theorem srem_db_cases (d : KVDB) (k0 : String) (ms : List String) :
    (d.srem k0 ms).2.db = d.db ∨
    ∃ w, (d.srem k0 ms).2.db = mapInsert d.db k0 w := by
  rcases hg : mapGet d.db k0 with _ | w
  · left
    simp [KVDB.srem, hg]
  · cases w with
    | StringValue s =>
        left
        simp [KVDB.srem, hg]
    | SetValue sv =>
        right
        exact ⟨Value.SetValue (ms.foldl sremStep (0, sv)).2, by simp [KVDB.srem, hg]⟩
    | HashValue hv =>
        left
        simp [KVDB.srem, hg]

theorem hset_db_cases (d : KVDB) (k0 f v : String) :
    (d.hset k0 f v).2.db = d.db ∨
    ∃ w, (d.hset k0 f v).2.db = mapInsert d.db k0 w := by
  rcases hg : mapGet d.db k0 with _ | w
  · cases hcak : d.can_add_key
    · left
      simp [KVDB.hset, hg, hcak]
    · right
      exact ⟨Value.HashValue [(f, v)], by simp [KVDB.hset, hg, hcak]⟩
  · cases w with
    | StringValue s =>
        left
        simp [KVDB.hset, hg]
    | SetValue sv =>
        left
        simp [KVDB.hset, hg]
    | HashValue hv =>
        right
        refine ⟨Value.HashValue (mapInsert hv f v), ?_⟩
        rcases hf : mapGet hv f with _ | old <;> simp [KVDB.hset, hg, hf]

theorem hmset_db_cases (d : KVDB) (k0 : String) (ps : List (String × String)) :
    (d.hmset k0 ps).2.db = d.db ∨
    ∃ w, (d.hmset k0 ps).2.db = mapInsert d.db k0 w := by
  rcases hg : mapGet d.db k0 with _ | w
  · cases hcak : d.can_add_key
    · left
      simp [KVDB.hmset, hg, hcak]
    · right
      exact ⟨Value.HashValue (hmsetFold [] ps), by simp [KVDB.hmset, hg, hcak]⟩
  · cases w with
    | StringValue s =>
        left
        simp [KVDB.hmset, hg]
    | SetValue sv =>
        left
        simp [KVDB.hmset, hg]
    | HashValue hv =>
        right
        exact ⟨Value.HashValue (hmsetFold hv ps), by simp [KVDB.hmset, hg]⟩

theorem hdel_db_cases (d : KVDB) (k0 f : String) :
    (d.hdel k0 f).2.db = d.db ∨ ∃ w, (d.hdel k0 f).2.db = mapInsert d.db k0 w := by
  rcases hg : mapGet d.db k0 with _ | w
  · left
    simp [KVDB.hdel, hg]
  · cases w with
    | StringValue s =>
        left
        simp [KVDB.hdel, hg]
    | SetValue sv =>
        left
        simp [KVDB.hdel, hg]
    | HashValue hv =>
        rcases hf : mapGet hv f with _ | old
        · left
          simp [KVDB.hdel, hg, hf]
        · right
          exact ⟨Value.HashValue (mapRemove hv f), by simp [KVDB.hdel, hg, hf]⟩

theorem db_cases_preserves_existsKey (d d' : KVDB) (k0 k : String)
    (hdb : d'.db = d.db ∨ ∃ w, d'.db = mapInsert d.db k0 w)
    (h : d.existsKey k = true) : d'.existsKey k = true := by
  simp only [KVDB.existsKey] at h ⊢
  rcases hdb with hdb | ⟨w, hdb⟩
  · rw [hdb]
    exact h
  · rw [hdb]
    exact isSome_mapGet_mapInsert _ _ _ _ h

/-- No operation other than `del` ever removes a key: every other public
method preserves key presence. -/
theorem applyOp_preserves_existsKey (op : Op) (d : KVDB) (k : String)
    (hop : ∀ keys, op ≠ Op.del keys) (h : d.existsKey k = true) :
    (applyOp op d).existsKey k = true := by
  cases op with
  | set k0 v ne ae e =>
      exact db_cases_preserves_existsKey d _ k0 k
        ((set_db_cases d k0 v ne ae e).imp id (fun hh => ⟨_, hh⟩)) h
  | sets k0 v =>
      exact db_cases_preserves_existsKey d _ k0 k
        ((set_db_cases d k0 v false false none).imp id (fun hh => ⟨_, hh⟩)) h
  | get k0 => exact h
  | sadd k0 ms => exact db_cases_preserves_existsKey d _ k0 k (sadd_db_cases d k0 ms) h
  | srandmember k0 c =>
      exact db_cases_preserves_existsKey d _ k0 k (srandmember_db_cases d k0 c) h
  | spop k0 => exact db_cases_preserves_existsKey d _ k0 k (spop_db_cases d k0) h
  | sismember k0 m0 => exact h
  | srem k0 ms => exact db_cases_preserves_existsKey d _ k0 k (srem_db_cases d k0 ms) h
  | slen k0 => exact h
  | smembers k0 => exact h
  | hset k0 f v =>
      exact db_cases_preserves_existsKey d _ k0 k (hset_db_cases d k0 f v) h
  | hget k0 f => exact h
  | hmset k0 ps =>
      exact db_cases_preserves_existsKey d _ k0 k (hmset_db_cases d k0 ps) h
  | hmget k0 fs => exact h
  | hkeys k0 => exact h
  | hvalues k0 => exact h
  | hexists k0 f => exact h
  | hlen k0 => exact h
  | hdel k0 f => exact db_cases_preserves_existsKey d _ k0 k (hdel_db_cases d k0 f) h
  | del keys => exact absurd rfl (hop keys)
  | existsKey k0 => exact h
  | size => exact h

/-- C9: removing the last element of a collection never removes its key.
`srem`, `spop` and `srandmember` on a Set key, and `hdel` on a Hash key, keep
the key present with the entry count (the charge against the capacity
ceiling) unchanged, and the key still holds a Set/Hash whose length
`slen`/`hlen` reports — in particular `Some 0` when the collection was left
empty; moreover `del` is the only operation that removes a key: every other
operation preserves key presence. -/
theorem C9_emptied_collection_keeps_key (d : KVDB) (k f : String)
    (ms : List String) (c : Nat) :
    (∀ sv, mapGet d.db k = some (Value.SetValue sv) →
      ((d.srem k ms).2.existsKey k = true ∧ (d.srem k ms).2.size = d.size ∧
       (∃ sv', mapGet (d.srem k ms).2.db k = some (Value.SetValue sv') ∧
         (d.srem k ms).2.slen k = .ok (some sv'.length)) ∧
       (d.spop k).2.existsKey k = true ∧ (d.spop k).2.size = d.size ∧
       (∃ sv', mapGet (d.spop k).2.db k = some (Value.SetValue sv') ∧
         (d.spop k).2.slen k = .ok (some sv'.length)) ∧
       (d.srandmember k c).2.existsKey k = true ∧
       (d.srandmember k c).2.size = d.size ∧
       (∃ sv', mapGet (d.srandmember k c).2.db k = some (Value.SetValue sv') ∧
         (d.srandmember k c).2.slen k = .ok (some sv'.length)))) ∧
    (∀ hv, mapGet d.db k = some (Value.HashValue hv) →
      ((d.hdel k f).2.existsKey k = true ∧ (d.hdel k f).2.size = d.size ∧
       ∃ hv', mapGet (d.hdel k f).2.db k = some (Value.HashValue hv') ∧
         (d.hdel k f).2.hlen k = .ok (some hv'.length))) ∧
    (∀ (op : Op) (d' : KVDB) (k' : String), (∀ keys, op ≠ Op.del keys) →
      d'.existsKey k' = true → (applyOp op d').existsKey k' = true) := by
  refine ⟨?_, ?_, fun op d' k' hop h => applyOp_preserves_existsKey op d' k' hop h⟩
  · intro sv hg
    have hsremdb : (d.srem k ms).2.db =
        mapInsert d.db k (Value.SetValue (ms.foldl sremStep (0, sv)).2) := by
      simp [KVDB.srem, hg]
    have hsrand : (d.srandmember k c).2.db =
        mapInsert d.db k
          (Value.SetValue ((sv.take c).foldl (fun acc s => acc.erase s) sv)) := by
      simp [KVDB.srandmember, hg]
    refine ⟨?_, ?_, ?_, ?_, ?_, ?_, ?_, ?_, ?_⟩
    · simp [KVDB.existsKey, hsremdb, mapGet_mapInsert_self]
    · simp only [KVDB.size, hsremdb]
      exact length_mapInsert_present _ _ _ _ hg
    · exact ⟨_, by rw [hsremdb]; exact mapGet_mapInsert_self _ _ _,
        by simp [KVDB.slen, hsremdb, mapGet_mapInsert_self]⟩
    · cases sv with
      | nil => simp [KVDB.spop, hg, KVDB.existsKey]
      | cons x rest =>
          simp [KVDB.spop, hg, KVDB.existsKey, mapGet_mapInsert_self]
    · cases sv with
      | nil => simp [KVDB.spop, hg, KVDB.size]
      | cons x rest =>
          simp only [KVDB.spop, hg, KVDB.size]
          exact length_mapInsert_present _ _ _ _ hg
    · cases sv with
      | nil =>
          have hd : (d.spop k).2 = d := by simp [KVDB.spop, hg]
          rw [hd]
          exact ⟨[], hg, by simp [KVDB.slen, hg]⟩
      | cons x rest =>
          have hdb : (d.spop k).2.db = mapInsert d.db k (Value.SetValue rest) := by
            simp [KVDB.spop, hg]
          exact ⟨rest, by rw [hdb]; exact mapGet_mapInsert_self _ _ _,
            by simp [KVDB.slen, hdb, mapGet_mapInsert_self]⟩
    · simp [KVDB.existsKey, hsrand, mapGet_mapInsert_self]
    · simp only [KVDB.size, hsrand]
      exact length_mapInsert_present _ _ _ _ hg
    · exact ⟨_, by rw [hsrand]; exact mapGet_mapInsert_self _ _ _,
        by simp [KVDB.slen, hsrand, mapGet_mapInsert_self]⟩
  · intro hv hg
    rcases hf : mapGet hv f with _ | old
    · have hd : (d.hdel k f).2 = d := by simp [KVDB.hdel, hg, hf]
      rw [hd]
      exact ⟨by simp [KVDB.existsKey, hg], rfl, hv, hg, by simp [KVDB.hlen, hg]⟩
    · have hdb : (d.hdel k f).2.db =
          mapInsert d.db k (Value.HashValue (mapRemove hv f)) := by
        simp [KVDB.hdel, hg, hf]
      refine ⟨?_, ?_, mapRemove hv f, ?_, ?_⟩
      · simp [KVDB.existsKey, hdb, mapGet_mapInsert_self]
      · simp only [KVDB.size, hdb]
        exact length_mapInsert_present _ _ _ _ hg
      · rw [hdb]
        exact mapGet_mapInsert_self _ _ _
      · simp [KVDB.hlen, hdb, mapGet_mapInsert_self]

/-- Witness for C9: emptying the sample set and hash leaves their keys in
place with the entry count unchanged and the emptied collection still
readable, and a non-`del` operation (`spop`) keeps the sample key present. -/
theorem C9_witness :
    (dSetSample.srem "ks" ["a", "b", "c"]).2.existsKey "ks" = true ∧
    (dSetSample.srem "ks" ["a", "b", "c"]).2.size = dSetSample.size ∧
    (∃ sv', mapGet (dSetSample.srem "ks" ["a", "b", "c"]).2.db "ks" =
        some (Value.SetValue sv') ∧
      (dSetSample.srem "ks" ["a", "b", "c"]).2.slen "ks" =
        .ok (some sv'.length)) ∧
    (dSetSample.spop "ks").2.existsKey "ks" = true ∧
    (∃ sv', mapGet (dSetSample.spop "ks").2.db "ks" = some (Value.SetValue sv') ∧
      (dSetSample.spop "ks").2.slen "ks" = .ok (some sv'.length)) ∧
    (dSetSample.srandmember "ks" 3).2.existsKey "ks" = true ∧
    (∃ sv', mapGet (dSetSample.srandmember "ks" 3).2.db "ks" =
        some (Value.SetValue sv') ∧
      (dSetSample.srandmember "ks" 3).2.slen "ks" = .ok (some sv'.length)) ∧
    (dHashSample.hdel "kh" "a").2.existsKey "kh" = true ∧
    (dHashSample.hdel "kh" "a").2.size = dHashSample.size ∧
    (applyOp (Op.spop "ks") dSetSample).existsKey "ks" = true := by
  obtain ⟨e1, s1, x1, e2, -, x2, e3, -, x3⟩ :=
    (C9_emptied_collection_keeps_key dSetSample "ks" "f" ["a", "b", "c"] 3).1
      ["a", "b", "c"] rfl
  obtain ⟨e4, s4, -⟩ :=
    (C9_emptied_collection_keeps_key dHashSample "kh" "a" [] 0).2.1
      [("a", "1")] rfl
  have hp :=
    (C9_emptied_collection_keeps_key dSetSample "ks" "f" [] 0).2.2
      (Op.spop "ks") dSetSample "ks" (fun keys hh => Op.noConfusion hh) rfl
  exact ⟨e1, s1, x1, e2, x2, e3, x3, e4, s4, hp⟩


theorem del_foldl_get_not_mem (keys : List String) (c : Nat) (d : KVDB)
    (k : String) (hk : k ∉ keys) :
    mapGet ((keys.foldl delStep (c, d)).2).db k = mapGet d.db k := by
  induction keys generalizing c d with
  | nil => rfl
  | cons key rest ih =>
      have hne : k ≠ key := fun hh => hk (by simp [hh])
      have hk' : k ∉ rest := fun hh => hk (List.mem_cons_of_mem _ hh)
      simp only [List.foldl_cons]
      rcases hg : mapGet d.db key with _ | w
      · simpa [delStep, hg] using ih c d hk'
      · simp only [delStep, hg]
        rw [ih _ _ hk']
        exact mapGet_mapRemove_ne _ _ _ hne

theorem del_foldl_get_none (keys : List String) (c : Nat) (d : KVDB)
    (k : String) (h : mapGet d.db k = none) :
    mapGet ((keys.foldl delStep (c, d)).2).db k = none := by
  induction keys generalizing c d with
  | nil => exact h
  | cons key rest ih =>
      simp only [List.foldl_cons]
      rcases hg : mapGet d.db key with _ | w
      · simp only [delStep, hg]
        exact ih c d h
      · simp only [delStep, hg]
        refine ih _ _ ?_
        by_cases hkk : k = key
        · subst hkk
          exact mapGet_mapRemove_self _ _
        · rw [mapGet_mapRemove_ne _ _ _ hkk]
          exact h

theorem del_foldl_get_mem (keys : List String) (c : Nat) (d : KVDB)
    (k : String) (hk : k ∈ keys) :
    mapGet ((keys.foldl delStep (c, d)).2).db k = none := by
  induction keys generalizing c d with
  | nil => cases hk
  | cons key rest ih =>
      simp only [List.foldl_cons]
      by_cases hkk : k = key
      · subst hkk
        rcases hg : mapGet d.db k with _ | w
        · simp only [delStep, hg]
          exact del_foldl_get_none rest c d k hg
        · simp only [delStep, hg]
          exact del_foldl_get_none rest _ _ k (mapGet_mapRemove_self _ _)
      · have hk' : k ∈ rest := by
          rcases List.mem_cons.mp hk with h1 | h1
          · exact absurd h1 hkk
          · exact h1
        rcases hg : mapGet d.db key with _ | w
        · simp only [delStep, hg]
          exact ih c d hk'
        · simp only [delStep, hg]
          exact ih _ _ hk'

/-- C10: `del(keys)` touches only the entries map: it removes exactly the
named keys (any key in `keys` is afterwards absent, every other key keeps its
binding) and leaves the expiry ledger and the capacity setting completely
unchanged, so a recorded expiry timestamp survives the deletion of its key. -/
theorem C10_del_frame (d : KVDB) (keys : List String) :
    (d.del keys).2.ttl = d.ttl ∧ (d.del keys).2.max_keys = d.max_keys ∧
    (∀ k, k ∉ keys → mapGet (d.del keys).2.db k = mapGet d.db k) ∧
    (∀ k, k ∈ keys → mapGet (d.del keys).2.db k = none) := by
  unfold KVDB.del
  exact ⟨(del_foldl_ttl_max keys 0 d).1, (del_foldl_ttl_max keys 0 d).2,
    fun k hk => del_foldl_get_not_mem keys 0 d k hk,
    fun k hk => del_foldl_get_mem keys 0 d k hk⟩

/-- Witness for C10 on a store with two keys and a TTL entry for "k1":
deleting "k1" keeps the TTL ledger (with the now-stale "k1" timestamp),
keeps "k2", and removes "k1" from the entries. -/
theorem C10_witness :
    (dDelSample.del ["k1"]).2.ttl = dDelSample.ttl ∧
    mapGet (dDelSample.del ["k1"]).2.db "k2" = mapGet dDelSample.db "k2" ∧
    mapGet (dDelSample.del ["k1"]).2.db "k1" = none := by
  obtain ⟨h1, -, h3, h4⟩ := C10_del_frame dDelSample ["k1"]
  exact ⟨h1, h3 "k2" (by decide), h4 "k1" (by decide)⟩
